import Mathlib

/-!
# Verification of the Monte Carlo DCF valuation engine

A shallow embedding, over the rationals, of the discounted-cash-flow
calculation code of this repository:

* `monte_carlo.py` — the Monte Carlo simulation loop run by the button
  handler (sampling of WACC, growth and exit multiple; the ten-year
  two-stage projection with linear fade; the two terminal-value methods;
  the equity bridge and the clamp at zero; mean and percentiles of the
  scenario prices).
* `sensitivity.py` — the deterministic `calculate_metrics` variant used
  by the WIBOR sensitivity page.

Randomness is de-randomized: a call `np.random.normal(mean, std)` is
modelled as `mean + std * z` where `z` is a standard-normal deviate taken
from an explicit noise argument.  The unseeded global numpy generator is
modelled, where the claims need it, as a stream of deviates together with
a cursor that each run advances.
-/

namespace DCF

/-- `np.random.normal(mean, std)` de-randomized: the draw produced from the
standard-normal deviate `z` is `mean + std * z`.  In particular a draw with
`std = 0` equals `mean` exactly. -/
def normalSample (mean std z : ℚ) : ℚ := mean + std * z

/-- The terminal-value method chosen by the `tv_method` radio button:
`"Wzrost wieczysty (Gordon Growth)"` or `"Mnożnik wyjścia (Exit Multiple)"`. -/
inductive TVMethod where
  | gordon
  | exitMultiple
deriving DecidableEq

/-- The scalar inputs that reach the simulation loop of `monte_carlo.py`
(`val_fcf`, `val_debt`, `val_shares`, `wacc_final`, `g_high`, the terminal
method, `g_term`, `exit_mult`).  `g_term` is only meaningful under the
Gordon method and `exit_mult` only under the exit-multiple method. -/
structure Inputs where
  val_fcf : ℚ
  val_debt : ℚ
  val_shares : ℚ
  wacc_final : ℚ
  g_high : ℚ
  tv_method : TVMethod
  g_term : ℚ
  exit_mult : ℚ

/-- The fade target of the projection loop:
`target_g = g_term if tv_method == "Wzrost wieczysty (Gordon Growth)" else 0.02`. -/
def fadeTarget (m : TVMethod) (g_term : ℚ) : ℚ :=
  match m with
  | .gordon => g_term
  | .exitMultiple => 2/100

/-- The growth rate the loop applies in a given year (`monte_carlo.py`,
lines 199–204): years 1–5 use the sampled `s_g`; years 6–10 blend `s_g`
with the fade target using `fade_factor = (year - 5) / 5`. -/
def growthFor (m : TVMethod) (g_term s_g : ℚ) (year : ℕ) : ℚ :=
  if year ≤ 5 then s_g
  else
    let target_g := fadeTarget m g_term
    let fade_factor : ℚ := ((year : ℚ) - 5) / 5
    s_g * (1 - fade_factor) + target_g * fade_factor

/-- One iteration of the projection loop: the state is the pair
`(current_fcf, pv_projection)`; the year multiplies `current_fcf` by
`1 + growth` and adds the discounted flow to `pv_projection`. -/
def projStep (m : TVMethod) (g_term s_g s_wacc : ℚ) (st : ℚ × ℚ) (year : ℕ) :
    ℚ × ℚ :=
  let growth := growthFor m g_term s_g year
  let fcf := st.1 * (1 + growth)
  (fcf, st.2 + fcf / (1 + s_wacc) ^ year)

/-- The `for year in range(1, 11)` projection loop, started from
`(val_fcf, 0)`; returns the final `(current_fcf, pv_projection)`. -/
def project (m : TVMethod) (g_term s_g s_wacc fcf0 : ℚ) : ℚ × ℚ :=
  (List.range' 1 10).foldl (projStep m g_term s_g s_wacc) (fcf0, 0)

/-- The Gordon-growth denominator `max(s_wacc - g_term, 0.005)`
(`monte_carlo.py`, line 210). -/
def gordonDenominator (s_wacc g_term : ℚ) : ℚ :=
  max (s_wacc - g_term) (5/1000)

/-- The terminal value (`monte_carlo.py`, lines 209–213): Gordon growth
uses the fixed input `g_term` and the floored denominator; the exit-multiple
branch multiplies the final cash flow by the sampled multiple `s_mult`. -/
def terminalValue (m : TVMethod) (g_term fcf_final s_wacc s_mult : ℚ) : ℚ :=
  match m with
  | .gordon => fcf_final * (1 + g_term) / gordonDenominator s_wacc g_term
  | .exitMultiple => fcf_final * s_mult

/-- The price computed by one scenario of the simulation loop
(`monte_carlo.py`, lines 195–220), as a function of the sampled values
`s_wacc`, `s_g` and (in the exit-multiple branch) `s_mult`:
project ten years, add the discounted terminal value, subtract net debt,
convert billions/millions to a per-share price and clamp at zero. -/
def scenarioPrice (inp : Inputs) (s_wacc s_g s_mult : ℚ) : ℚ :=
  let pr := project inp.tv_method inp.g_term s_g s_wacc inp.val_fcf
  let tv := terminalValue inp.tv_method inp.g_term pr.1 s_wacc s_mult
  let pv_tv := tv / (1 + s_wacc) ^ 10
  let enterprise_value := pr.2 + pv_tv
  let equity_value := enterprise_value - inp.val_debt
  max (equity_value * 1000 / inp.val_shares) 0

/-- The standard-normal deviates one scenario may consume: one for the
WACC draw, one for the growth draw, one for the exit-multiple draw. -/
structure Noise where
  zWacc : ℚ
  zG : ℚ
  zMult : ℚ

/-- The simulation loop with the three standard deviations as explicit
parameters (the spec's AssumptionSet exposes them); the source hardcodes
`waccStd = 0.007`, `gStd = 0.02`, `multStd = 1.0`. -/
def runSimulationWithStd (waccStd gStd multStd : ℚ) (inp : Inputs)
    (noise : List Noise) : List ℚ :=
  noise.map fun z =>
    scenarioPrice inp
      (normalSample inp.wacc_final waccStd z.zWacc)
      (normalSample inp.g_high gStd z.zG)
      (normalSample inp.exit_mult multStd z.zMult)

/-- The simulation loop exactly as in `monte_carlo.py` lines 190–220:
`s_wacc = np.random.normal(wacc_final, 0.007)`,
`s_g = np.random.normal(g_high, 0.02)`, and in the exit-multiple branch
`s_mult = np.random.normal(exit_mult, 1.0)`; one price per scenario. -/
def runSimulation (inp : Inputs) (noise : List Noise) : List ℚ :=
  runSimulationWithStd (7/1000) (2/100) 1 inp noise

/-- `np.mean` over the result list. -/
def meanList (xs : List ℚ) : ℚ := xs.sum / (xs.length : ℚ)

/-- One scenario drawing its samples from the unseeded global numpy
generator, modelled as a stream `rng` of standard-normal deviates and a
cursor `c`: the scenario consumes the deviates in program order (WACC,
growth, then — only in the exit-multiple branch — the multiple) and
returns the price together with the advanced cursor. -/
def scenarioFromStream (inp : Inputs) (rng : ℕ → ℚ) (c : ℕ) : ℚ × ℕ :=
  let s_wacc := normalSample inp.wacc_final (7/1000) (rng c)
  let s_g := normalSample inp.g_high (2/100) (rng (c + 1))
  match inp.tv_method with
  | .gordon => (scenarioPrice inp s_wacc s_g 0, c + 2)
  | .exitMultiple =>
      (scenarioPrice inp s_wacc s_g (normalSample inp.exit_mult 1 (rng (c + 2))),
        c + 3)

/-- The whole `for _ in range(sims)` loop against the global generator:
returns the list of scenario prices and the generator cursor after the
run.  Two successive runs share the stream: the second starts at the
cursor the first one left behind. -/
def globalRunSim (inp : Inputs) : ℕ → (ℕ → ℚ) → ℕ → List ℚ × ℕ
  | 0, _, c => ([], c)
  | n + 1, rng, c =>
    let pc := scenarioFromStream inp rng c
    let rest := globalRunSim inp n rng pc.2
    (pc.1 :: rest.1, rest.2)

/-- The validation failures the button handler can signal via `st.error`
before running the simulation (`monte_carlo.py`, lines 184–187). -/
inductive CalcError where
  | invalidShares
  | invalidWeights
deriving DecidableEq

/-- The `st.button("🚀 Uruchom Kalkulację DCF")` handler: reject
`val_shares <= 0`, then reject capital weights not summing to 1 (within
0.001), and only otherwise run the simulation.  The returned cursor shows
how far the global generator was advanced; the error branches leave it
untouched because they make no draw. -/
def runCalculation (weight_equity weight_debt : ℚ) (inp : Inputs) (sims : ℕ)
    (rng : ℕ → ℚ) (c : ℕ) : Except CalcError (List ℚ) × ℕ :=
  if inp.val_shares ≤ 0 then (.error .invalidShares, c)
  else if 1/1000 < |weight_equity + weight_debt - 1| then
    (.error .invalidWeights, c)
  else
    let r := globalRunSim inp sims rng c
    (.ok r.1, r.2)

/-! ### The closed-form deterministic DCF (the spec side of the
zero-volatility refinement claim)

Written from the spec's description — compound FCF year by year along the
growth schedule (stage growth for years 1–5, linear fade with
`fade_factor` clamped to `[0,1]` afterwards), discount each flow at the
fixed WACC, add the discounted terminal value, subtract net debt, divide
by shares (billions over millions, hence the factor 1000) and floor at
zero — to be compared with the engine above. -/

/-- Clamp to the unit interval (the spec's fade factor is clamped). -/
def clamp01 (x : ℚ) : ℚ := min (max x 0) 1

/-- The spec's growth schedule: stage growth up to year 5, then a linear
fade toward the target with clamped fade factor. -/
def detGrowth (stage_g target : ℚ) (year : ℕ) : ℚ :=
  if year ≤ 5 then stage_g
  else
    let f := clamp01 (((year : ℚ) - 5) / 5)
    stage_g * (1 - f) + target * f

/-- Year-by-year compounded cash flow along the spec's schedule. -/
def detFcf (fcf0 stage_g target : ℚ) : ℕ → ℚ
  | 0 => fcf0
  | y + 1 => detFcf fcf0 stage_g target y * (1 + detGrowth stage_g target (y + 1))

/-- The closed-form deterministic DCF value at the mean parameters. -/
def detDCF (inp : Inputs) : ℚ :=
  let target := fadeTarget inp.tv_method inp.g_term
  let w := inp.wacc_final
  let fcfAt := detFcf inp.val_fcf inp.g_high target
  let pv := ((List.range' 1 10).map fun y => fcfAt y / (1 + w) ^ y).sum
  let tv :=
    match inp.tv_method with
    | .gordon => fcfAt 10 * (1 + inp.g_term) / max (w - inp.g_term) (5/1000)
    | .exitMultiple => fcfAt 10 * inp.exit_mult
  max ((pv + tv / (1 + w) ^ 10 - inp.val_debt) * 1000 / inp.val_shares) 0

/-- Modelled from the spec: the terminal value the per-scenario-sampling
claim describes, in which the Gordon growth rate itself is sampled per
scenario from `Normal(terminal_growth_mean, terminal_growth_std)` (deviate
`z`) before entering the perpetuity formula.  The engine in `monte_carlo.py`
has no such draw and no `terminal_growth_std`; this definition exists to be
compared with `terminalValue`. -/
def terminalValueSpecTG (tgMean tgStd z fcf_final s_wacc : ℚ) : ℚ :=
  let g := normalSample tgMean tgStd z
  fcf_final * (1 + g) / max (s_wacc - g) (5/1000)

/-- `np.percentile(xs, p)` with the default linear-interpolation method:
sort ascending, take the fractional rank `h = p/100 * (n-1)`, and
interpolate linearly between the neighbouring order statistics (indices
clipped into range). -/
def percentile (xs : List ℚ) (p : ℚ) : ℚ :=
  let s := List.insertionSort (· ≤ ·) xs
  let n := s.length
  let h := p / 100 * ((n : ℚ) - 1)
  let i := (⌊h⌋).toNat
  let lo := s.getD (min i (n - 1)) 0
  let hi := s.getD (min (i + 1) (n - 1)) 0
  lo + (h - (i : ℚ)) * (hi - lo)

/-! ### The deterministic sensitivity variant (`sensitivity.py`) -/

/-- The sidebar inputs `calculate_metrics` closes over in
`sensitivity.py`. -/
structure SensInputs where
  fcf_year_0 : ℚ
  net_debt : ℚ
  shares : ℚ
  bank_margin : ℚ
  tax_rate : ℚ
  weight_debt : ℚ
  cost_equity : ℚ
  g_growth : ℚ
  g_term_base : ℚ

/-- Steps 1–3 of `calculate_metrics`: cost of debt from WIBOR plus the
bank margin, after-tax cost of debt, and the WACC blend. -/
def sensWacc (c : SensInputs) (wibor_val : ℚ) : ℚ :=
  let kd := wibor_val + c.bank_margin
  let kd_after_tax := kd * (1 - c.tax_rate)
  c.cost_equity * (1 - c.weight_debt) + kd_after_tax * c.weight_debt

/-- One year of the simplified five-year projection loop of
`calculate_metrics`. -/
def sensStep (g wacc : ℚ) (st : ℚ × ℚ) (year : ℕ) : ℚ × ℚ :=
  let fcf := st.1 * (1 + g)
  (fcf, st.2 + fcf / (1 + wacc) ^ year)

/-- Step 4 of `calculate_metrics`: the five-year projection, the floored
Gordon terminal value, the equity bridge and the clamp at zero, as a
function of the WACC. -/
def sensPriceAtWacc (c : SensInputs) (wacc : ℚ) : ℚ :=
  let pr := (List.range' 1 5).foldl (sensStep c.g_growth wacc) (c.fcf_year_0, 0)
  let denominator := max (wacc - c.g_term_base) (5/1000)
  let tv := pr.1 * (1 + c.g_term_base) / denominator
  let pv_tv := tv / (1 + wacc) ^ 5
  let equity := pr.2 + pv_tv - c.net_debt
  max (equity / c.shares) 0

/-- `calculate_metrics(wibor_val)` from `sensitivity.py`, returning
`(kd, wacc, price)`. -/
def calculate_metrics (c : SensInputs) (wibor_val : ℚ) : ℚ × ℚ × ℚ :=
  (wibor_val + c.bank_margin, sensWacc c wibor_val,
    sensPriceAtWacc c (sensWacc c wibor_val))

/-! ### Concrete example inputs used by witnesses and counterexamples -/

/-- A Gordon-growth example: `fcf = 100`, `net debt = 50`, `shares = 1000`,
`wacc = 9.5%`, `stage growth = 12%`, `terminal growth = 2.5%`. -/
def exInp : Inputs :=
  { val_fcf := 100, val_debt := 50, val_shares := 1000, wacc_final := 19/200
    g_high := 12/100, tv_method := .gordon, g_term := 1/40, exit_mult := 15 }

/-- An exit-multiple example with zero mean WACC/growth/multiple, so the
sampled values are directly the scaled deviates. -/
def exInpExit : Inputs :=
  { val_fcf := 1, val_debt := 0, val_shares := 1000, wacc_final := 0
    g_high := 0, tv_method := .exitMultiple, g_term := 0, exit_mult := 0 }

/-- A negative-FCF, large-net-cash example: the base free cash flow is
`-1` and the net debt is `-1000` (a net cash position). -/
def exInpNegFcf : Inputs :=
  { val_fcf := -1, val_debt := -1000, val_shares := 1000, wacc_final := 0
    g_high := 0, tv_method := .exitMultiple, g_term := 0, exit_mult := 0 }

/-- A deviate stream whose fifth entry is `1` and all others `0`: the two
consecutive single-scenario runs that share it read different draws. -/
def exRng : ℕ → ℚ := fun n => if n = 4 then 1 else 0

/-- The sensitivity-page example from the sidebar defaults of
`sensitivity.py`. -/
def exSens : SensInputs :=
  { fcf_year_0 := 100, net_debt := 400, shares := 14, bank_margin := 2/100
    tax_rate := 19/100, weight_debt := 30/100, cost_equity := 125/1000
    g_growth := 10/100, g_term_base := 1/40 }

/-! ## Theorems -/

/-- C4: with the two-stage schedule (years 1–5 constant growth, years 6–10
linear fade with `fade_factor = (year - 5) / 5`), the growth applied in
year 6 equals `stage1_growth * 0.8 + target_growth * 0.2` and the growth
applied in year 10 equals exactly the target (terminal) growth. -/
theorem fade_boundary (m : TVMethod) (g_term s_g : ℚ) :
    growthFor m g_term s_g 6 = s_g * (8/10) + fadeTarget m g_term * (2/10) ∧
    growthFor m g_term s_g 10 = fadeTarget m g_term := by
  constructor <;> norm_num [growthFor]

/-- C2: under the Gordon-growth method the terminal value is
`fcf_final * (1 + g_term) / max(s_wacc - g_term, 0.005)`, the denominator
is bounded below by `0.005` for every sampled discount rate and terminal
growth, and (for a non-negative final cash flow and `g_term ≥ -1`) the
terminal value is never negative — over `ℚ` the floored positive
denominator also rules out any division blow-up. -/
theorem terminal_spread_floor (s_wacc g_term fcf_final s_mult : ℚ) :
    terminalValue .gordon g_term fcf_final s_wacc s_mult
        = fcf_final * (1 + g_term) / gordonDenominator s_wacc g_term ∧
    (5/1000 : ℚ) ≤ gordonDenominator s_wacc g_term ∧
    (0 ≤ fcf_final → -1 ≤ g_term →
      0 ≤ terminalValue .gordon g_term fcf_final s_wacc s_mult) := by
  refine ⟨rfl, le_max_right _ _, fun hf hg => ?_⟩
  have hd : (0:ℚ) < gordonDenominator s_wacc g_term :=
    lt_of_lt_of_le (by norm_num) (le_max_right _ _)
  have hnum : 0 ≤ fcf_final * (1 + g_term) := mul_nonneg hf (by linarith)
  simpa [terminalValue] using div_nonneg hnum hd.le

/-- C2 witness: at `s_wacc = 9.5%`, `g_term = 2.5%`, `fcf_final = 100` the
Gordon terminal value is non-negative. -/
theorem terminal_spread_floor_witness :
    (0:ℚ) ≤ terminalValue .gordon (1/40) 100 (19/200) 0 :=
  (terminal_spread_floor (19/200) (1/40) 100 0).2.2 (by norm_num) (by norm_num)

/-- C3: for a positive share count, every per-scenario share price the
simulation produces is non-negative (the final step clamps
`equity_value * 1000 / val_shares` at zero), whatever the net debt. -/
theorem share_price_nonneg (inp : Inputs) (hs : 0 < inp.val_shares)
    (noise : List Noise) (p : ℚ) (hp : p ∈ runSimulation inp noise) : 0 ≤ p := by
  simp only [runSimulation, runSimulationWithStd, List.mem_map] at hp
  obtain ⟨z, _, rfl⟩ := hp
  exact le_max_right _ _

/-- C3 witness: the single-scenario price at zero deviates for the
Gordon example is non-negative. -/
theorem share_price_nonneg_witness :
    (0:ℚ) ≤ scenarioPrice exInp (normalSample exInp.wacc_final (7/1000) 0)
      (normalSample exInp.g_high (2/100) 0) (normalSample exInp.exit_mult 1 0) :=
  share_price_nonneg exInp (by norm_num [exInp]) [⟨0, 0, 0⟩] _
    (by simp [runSimulation, runSimulationWithStd])

/-- C9: when `val_shares ≤ 0` the button handler fails with the
invalid-shares error for every generator stream and cursor, and the cursor
is returned unchanged: the failure is surfaced before any random draw is
made and the invalid input is never silently corrected. -/
theorem validation_before_sampling (weight_equity weight_debt : ℚ)
    (inp : Inputs) (sims : ℕ) (rng : ℕ → ℚ) (c : ℕ)
    (h : inp.val_shares ≤ 0) :
    runCalculation weight_equity weight_debt inp sims rng c
      = (.error .invalidShares, c) := by
  simp [runCalculation, h]

/-- C9 witness: at a zero share count the handler rejects without
advancing the generator. -/
theorem validation_before_sampling_witness :
    runCalculation (1/2) (1/2) { exInp with val_shares := 0 } 5 exRng 0
      = (.error .invalidShares, 0) :=
  validation_before_sampling (1/2) (1/2) _ 5 exRng 0 (by norm_num)

/-- C6 counterexample: the claim that the Gordon terminal growth is
sampled per scenario from `Normal(terminal_growth_mean,
terminal_growth_std)` fails on the code: at `tg_mean = 2.5%`,
`tg_std = 1%`, deviate `z = 1`, `fcf_final = 100`, `s_wacc = 9.5%`, the
per-scenario-sampled terminal value the claim describes differs from the
terminal value the engine computes (the engine uses the fixed input
`g_term` in every scenario and makes no such draw). -/
theorem terminal_growth_not_sampled_cex :
    terminalValueSpecTG (1/40) (1/100) 1 100 (19/200)
      ≠ terminalValue .gordon (1/40) 100 (19/200) 0 := by
  norm_num [terminalValueSpecTG, terminalValue, normalSample, gordonDenominator,
    max_def]

/-- C6 amended: under the perpetuity method the terminal growth is not
sampled — every scenario uses the fixed input `g_term` in the Gordon
formula, and the scenario price is independent of the one remaining draw
(the exit multiple's deviate), which only the exit-multiple branch
consumes. -/
theorem terminal_growth_fixed (inp : Inputs) (h : inp.tv_method = .gordon)
    (fcf_final s_wacc s_g s_mult1 s_mult2 : ℚ) :
    scenarioPrice inp s_wacc s_g s_mult1 = scenarioPrice inp s_wacc s_g s_mult2 ∧
    terminalValue inp.tv_method inp.g_term fcf_final s_wacc s_mult1
      = fcf_final * (1 + inp.g_term) / gordonDenominator s_wacc inp.g_term := by
  constructor <;> simp [scenarioPrice, terminalValue, h]

/-- C6 witness: for the Gordon example the scenario price ignores the
multiple deviate. -/
theorem terminal_growth_fixed_witness :
    scenarioPrice exInp (19/200) (12/100) 7
      = scenarioPrice exInp (19/200) (12/100) (-3) :=
  (terminal_growth_fixed exInp rfl 100 (19/200) (12/100) 7 (-3)).1

/-- C5 counterexample: the determinism-under-a-fixed-seed claim fails on
the code, which draws from the unseeded global numpy generator: two
consecutive single-scenario runs with the identical input `exInpExit`
share the generator stream `exRng`, so the second run reads the draws the
first one left behind and produces a different price sequence. -/
theorem fixed_seed_determinism_cex :
    (globalRunSim exInpExit 1 exRng 0).1
      ≠ (globalRunSim exInpExit 1 exRng ((globalRunSim exInpExit 1 exRng 0).2)).1 := by
  norm_num [globalRunSim, scenarioFromStream, exRng, exInpExit, scenarioPrice,
    project, List.range', projStep, growthFor, fadeTarget, terminalValue,
    normalSample, max_def]

/-- Helper for the amended determinism claim: one scenario is a pure
function of the at most three deviates it reads, and it advances both
cursors by the same number of draws. -/
theorem scenarioFromStream_congr (inp : Inputs) (rng1 rng2 : ℕ → ℚ)
    (c1 c2 : ℕ) (h : ∀ i, i < 3 → rng1 (c1 + i) = rng2 (c2 + i)) :
    (scenarioFromStream inp rng1 c1).1 = (scenarioFromStream inp rng2 c2).1 ∧
    ∃ d, d ≤ 3 ∧ (scenarioFromStream inp rng1 c1).2 = c1 + d ∧
      (scenarioFromStream inp rng2 c2).2 = c2 + d := by
  have h0 : rng1 c1 = rng2 c2 := by simpa using h 0 (by norm_num)
  have h1 : rng1 (c1 + 1) = rng2 (c2 + 1) := h 1 (by norm_num)
  have h2 : rng1 (c1 + 2) = rng2 (c2 + 2) := h 2 (by norm_num)
  cases hm : inp.tv_method
  · exact ⟨by simp [scenarioFromStream, hm, h0, h1],
      2, by norm_num, by simp [scenarioFromStream, hm],
      by simp [scenarioFromStream, hm]⟩
  · exact ⟨by simp [scenarioFromStream, hm, h0, h1, h2],
      3, by norm_num, by simp [scenarioFromStream, hm],
      by simp [scenarioFromStream, hm]⟩

/-- Helper: the whole run is a pure function of its inputs and of the
deviate segment it consumes (at most `3 * sims` draws). -/
theorem globalRunSim_congr (inp : Inputs) :
    ∀ (sims : ℕ) (rng1 rng2 : ℕ → ℚ) (c1 c2 : ℕ),
      (∀ i, i < 3 * sims → rng1 (c1 + i) = rng2 (c2 + i)) →
      (globalRunSim inp sims rng1 c1).1 = (globalRunSim inp sims rng2 c2).1 := by
  intro sims
  induction sims with
  | zero => intro rng1 rng2 c1 c2 _; rfl
  | succ n ih =>
    intro rng1 rng2 c1 c2 h
    obtain ⟨hp, d, hd3, hd1, hd2⟩ := scenarioFromStream_congr inp rng1 rng2 c1 c2
      (fun i hi => h i (by omega))
    have hrec := ih rng1 rng2 (c1 + d) (c2 + d)
      (fun i hi => by simpa [Nat.add_assoc] using h (d + i) (by omega))
    simp [globalRunSim, hp, hd1, hd2, hrec]

/-- C5 amended: the engine is deterministic as a pure function of the
AssumptionSet and of the random deviates it consumes — two runs with
identical inputs that read identical deviate segments produce bit-identical
price sequences.  The code offers no `rng_seed`: reproducibility holds
only relative to the consumed segment of the global generator stream. -/
theorem engine_pure_given_draws (inp : Inputs) (sims : ℕ)
    (rng1 rng2 : ℕ → ℚ) (c1 c2 : ℕ)
    (h : ∀ i, i < 3 * sims → rng1 (c1 + i) = rng2 (c2 + i)) :
    (globalRunSim inp sims rng1 c1).1 = (globalRunSim inp sims rng2 c2).1 :=
  globalRunSim_congr inp sims rng1 rng2 c1 c2 h

/-- C5 witness: two runs reading the same deviates (streams shifted by
five positions) agree. -/
theorem engine_pure_given_draws_witness :
    (globalRunSim exInpExit 1 (fun n => (n : ℚ)) 0).1
      = (globalRunSim exInpExit 1 (fun n => ((n : ℚ) - 5)) 5).1 :=
  engine_pure_given_draws exInpExit 1 _ _ 0 5
    (fun i _ => by push_cast; ring)

/-- Helper for C1: inside the ten-year horizon the spec's clamped fade
schedule coincides with the engine's unclamped one. -/
theorem detGrowth_eq_growthFor (m : TVMethod) (g_term s_g : ℚ) (y : ℕ)
    (hy : y ≤ 10) :
    detGrowth s_g (fadeTarget m g_term) y = growthFor m g_term s_g y := by
  unfold detGrowth growthFor clamp01
  by_cases h5 : y ≤ 5
  · simp [h5]
  · have h6 : 6 ≤ y := by omega
    have hy6 : (6:ℚ) ≤ (y:ℚ) := by exact_mod_cast h6
    have hy10 : ((y:ℚ)) ≤ 10 := by exact_mod_cast hy
    have hf0 : (0:ℚ) ≤ ((y:ℚ) - 5) / 5 := by linarith
    have hf1 : ((y:ℚ) - 5) / 5 ≤ 1 := by linarith
    simp only [h5, if_false, max_eq_left hf0, min_eq_left hf1]

/-- Helper for C1: the engine's projection fold computes exactly the
year-by-year compounded cash flow and the sum of its discounted values. -/
theorem project_eq_det (m : TVMethod) (g_term s_g s_wacc fcf0 : ℚ) :
    ∀ k, k ≤ 10 →
      (List.range' 1 k).foldl (projStep m g_term s_g s_wacc) (fcf0, 0)
        = (detFcf fcf0 s_g (fadeTarget m g_term) k,
           ((List.range' 1 k).map fun y =>
             detFcf fcf0 s_g (fadeTarget m g_term) y / (1 + s_wacc) ^ y).sum) := by
  intro k
  induction k with
  | zero => intro _; rfl
  | succ n ih =>
    intro hn
    rw [List.range'_concat, List.foldl_append, List.map_append, List.sum_append,
      ih (by omega)]
    have h1n : 1 + 1 * n = n + 1 := by omega
    simp only [h1n, List.foldl_cons, List.foldl_nil, List.map_cons,
      List.map_nil, List.sum_cons, List.sum_nil]
    unfold projStep
    rw [show detFcf fcf0 s_g (fadeTarget m g_term) (n + 1)
          = detFcf fcf0 s_g (fadeTarget m g_term) n
            * (1 + detGrowth s_g (fadeTarget m g_term) (n + 1)) from rfl,
      detGrowth_eq_growthFor m g_term s_g (n + 1) hn]
    exact Prod.ext rfl (by ring)

/-- Helper for C1: one scenario evaluated at the mean parameters is the
closed-form deterministic DCF value. -/
theorem scenarioPrice_at_means (inp : Inputs) :
    scenarioPrice inp inp.wacc_final inp.g_high inp.exit_mult = detDCF inp := by
  unfold scenarioPrice project detDCF
  rw [project_eq_det inp.tv_method inp.g_term inp.g_high inp.wacc_final
    inp.val_fcf 10 (by norm_num)]
  cases hm : inp.tv_method <;> simp [terminalValue, gordonDenominator, hm]

/-- C1: zero-volatility collapse — with every standard deviation set to
zero, every sample equals its mean, so each of the `iterations` scenarios
produces the same share price, and that common price is the value of the
independently written closed-form deterministic DCF (`detDCF`): compound
FCF year by year, discount at the fixed WACC, add the discounted terminal
value, subtract net debt, divide by shares, floor at zero. -/
theorem zero_volatility_collapse (inp : Inputs) (noise : List Noise) (p : ℚ)
    (hp : p ∈ runSimulationWithStd 0 0 0 inp noise) : p = detDCF inp := by
  simp only [runSimulationWithStd, List.mem_map] at hp
  obtain ⟨z, _, rfl⟩ := hp
  simp only [normalSample, zero_mul, add_zero]
  exact scenarioPrice_at_means inp

/-- C1 witness: a zero-std single-scenario run on the Gordon example
(with arbitrary nonzero deviates) produces exactly `detDCF exInp`. -/
theorem zero_volatility_collapse_witness :
    scenarioPrice exInp (normalSample exInp.wacc_final 0 1)
        (normalSample exInp.g_high 0 2) (normalSample exInp.exit_mult 0 3)
      = detDCF exInp :=
  zero_volatility_collapse exInp [⟨1, 2, 3⟩] _
    (by simp [runSimulationWithStd])

/-- Helper for C7: within the ten-year horizon the applied growth rate is
monotone in the sampled stage growth (the fade weight `1 - fade_factor`
is non-negative there). -/
theorem growthFor_mono (m : TVMethod) (g_term sg1 sg2 : ℚ) (h : sg1 ≤ sg2)
    (y : ℕ) (hy : y ≤ 10) :
    growthFor m g_term sg1 y ≤ growthFor m g_term sg2 y := by
  unfold growthFor
  by_cases h5 : y ≤ 5
  · simp [h5, h]
  · have hy10 : ((y:ℚ)) ≤ 10 := by exact_mod_cast hy
    have hf : 0 ≤ 1 - ((y:ℚ) - 5) / 5 := by linarith
    simp only [h5, if_false]
    linarith [mul_le_mul_of_nonneg_right h hf]

/-- Helper for C7: within the horizon the applied growth rate stays at or
above `-1` when both the sampled stage growth and the fade target do. -/
theorem growthFor_ge_neg_one (m : TVMethod) (g_term sg : ℚ) (hsg : -1 ≤ sg)
    (ht : -1 ≤ fadeTarget m g_term) (y : ℕ) (hy : y ≤ 10) :
    -1 ≤ growthFor m g_term sg y := by
  unfold growthFor
  by_cases h5 : y ≤ 5
  · simpa [h5] using hsg
  · have h6 : 6 ≤ y := by omega
    have hy6 : (6:ℚ) ≤ (y:ℚ) := by exact_mod_cast h6
    have hy10 : ((y:ℚ)) ≤ 10 := by exact_mod_cast hy
    have hf0 : (0:ℚ) ≤ ((y:ℚ) - 5) / 5 := by linarith
    have hf1 : (0:ℚ) ≤ 1 - ((y:ℚ) - 5) / 5 := by linarith
    simp only [h5, if_false]
    linarith [mul_le_mul_of_nonneg_right hsg hf1,
      mul_le_mul_of_nonneg_right ht hf0]

/-- Helper for C7: the projection fold preserves, between a run at stage
growth `sg1` and one at `sg2 ≥ sg1` with the same sampled WACC, the facts
that the first cash flow is non-negative and that both the cash flow and
the accumulated present value are pointwise ordered. -/
theorem projFold_mono (m : TVMethod) (g_term w sg1 sg2 : ℚ) (hw : -1 < w)
    (h1 : -1 ≤ sg1) (h12 : sg1 ≤ sg2) (ht : -1 ≤ fadeTarget m g_term) :
    ∀ (ys : List ℕ), (∀ y ∈ ys, y ≤ 10) → ∀ (a1 a2 : ℚ × ℚ),
      0 ≤ a1.1 → a1.1 ≤ a2.1 → a1.2 ≤ a2.2 →
      0 ≤ (ys.foldl (projStep m g_term sg1 w) a1).1 ∧
      (ys.foldl (projStep m g_term sg1 w) a1).1
        ≤ (ys.foldl (projStep m g_term sg2 w) a2).1 ∧
      (ys.foldl (projStep m g_term sg1 w) a1).2
        ≤ (ys.foldl (projStep m g_term sg2 w) a2).2 := by
  intro ys
  induction ys with
  | nil => intro _ a1 a2 h01 hff hpv; exact ⟨h01, hff, hpv⟩
  | cons y ys ih =>
    intro hys a1 a2 h01 hff hpv
    have hy10 : y ≤ 10 := hys y (List.mem_cons_self _ _)
    have hg1 : -1 ≤ growthFor m g_term sg1 y :=
      growthFor_ge_neg_one m g_term sg1 h1 ht y hy10
    have hgm : growthFor m g_term sg1 y ≤ growthFor m g_term sg2 y :=
      growthFor_mono m g_term sg1 sg2 h12 y hy10
    have hpow : (0:ℚ) < (1 + w) ^ y := pow_pos (by linarith) y
    have hstep1 : 0 ≤ (projStep m g_term sg1 w a1 y).1 :=
      mul_nonneg h01 (by linarith)
    have hstepf : (projStep m g_term sg1 w a1 y).1
        ≤ (projStep m g_term sg2 w a2 y).1 :=
      mul_le_mul hff (by linarith) (by linarith) (le_trans h01 hff)
    have hsteppv : (projStep m g_term sg1 w a1 y).2
        ≤ (projStep m g_term sg2 w a2 y).2 := by
      have h' : a1.1 * (1 + growthFor m g_term sg1 y) / (1 + w) ^ y
          ≤ a2.1 * (1 + growthFor m g_term sg2 y) / (1 + w) ^ y :=
        (div_le_div_right hpow).mpr hstepf
      show a1.2 + _ / (1 + w) ^ y ≤ a2.2 + _ / (1 + w) ^ y
      linarith
    simpa only [List.foldl_cons] using
      ih (fun z hz => hys z (List.mem_cons_of_mem _ hz))
        (projStep m g_term sg1 w a1 y) (projStep m g_term sg2 w a2 y)
        hstep1 hstepf hsteppv

/-- Helper for C7: holding the sampled WACC and multiple fixed, the
scenario price is monotone in the sampled stage growth, provided the base
FCF is non-negative, the shares are positive and the samples lie in the
economically meaningful range. -/
theorem scenarioPrice_mono_g (inp : Inputs) (w sg1 sg2 sm : ℚ)
    (hw : -1 < w) (h1 : -1 ≤ sg1) (h12 : sg1 ≤ sg2)
    (ht : -1 ≤ fadeTarget inp.tv_method inp.g_term) (htg : -1 ≤ inp.g_term)
    (hsm : 0 ≤ sm) (hfcf : 0 ≤ inp.val_fcf) (hs : 0 < inp.val_shares) :
    scenarioPrice inp w sg1 sm ≤ scenarioPrice inp w sg2 sm := by
  have hyr : ∀ y ∈ List.range' 1 10, y ≤ 10 := by decide
  obtain ⟨hP0, hPf, hPpv⟩ := projFold_mono inp.tv_method inp.g_term w sg1 sg2
    hw h1 h12 ht (List.range' 1 10) hyr (inp.val_fcf, 0) (inp.val_fcf, 0)
    hfcf le_rfl le_rfl
  have hpow10 : (0:ℚ) < (1 + w) ^ 10 := pow_pos (by linarith) 10
  have htv : terminalValue inp.tv_method inp.g_term
        (project inp.tv_method inp.g_term sg1 w inp.val_fcf).1 w sm
      ≤ terminalValue inp.tv_method inp.g_term
        (project inp.tv_method inp.g_term sg2 w inp.val_fcf).1 w sm := by
    cases hm : inp.tv_method
    · simp only [terminalValue]
      have hD : (0:ℚ) < gordonDenominator w inp.g_term :=
        lt_of_lt_of_le (by norm_num) (le_max_right _ _)
      refine (div_le_div_right hD).mpr (mul_le_mul_of_nonneg_right ?_ (by linarith))
      simpa [project, hm] using hPf
    · simp only [terminalValue]
      refine mul_le_mul_of_nonneg_right ?_ hsm
      simpa [project, hm] using hPf
  have hpvtv := (div_le_div_right hpow10).mpr htv
  have hPpv' : (project inp.tv_method inp.g_term sg1 w inp.val_fcf).2
      ≤ (project inp.tv_method inp.g_term sg2 w inp.val_fcf).2 := hPpv
  show max (((project inp.tv_method inp.g_term sg1 w inp.val_fcf).2
      + terminalValue inp.tv_method inp.g_term
          (project inp.tv_method inp.g_term sg1 w inp.val_fcf).1 w sm
        / (1 + w) ^ 10 - inp.val_debt) * 1000 / inp.val_shares) 0
    ≤ max (((project inp.tv_method inp.g_term sg2 w inp.val_fcf).2
      + terminalValue inp.tv_method inp.g_term
          (project inp.tv_method inp.g_term sg2 w inp.val_fcf).1 w sm
        / (1 + w) ^ 10 - inp.val_debt) * 1000 / inp.val_shares) 0
  refine max_le_max ((div_le_div_right hs).mpr
    (mul_le_mul_of_nonneg_right ?_ (by norm_num))) le_rfl
  linarith

/-- C7 counterexample: the claim fails on the code as stated, because the
base cash flow may be negative.  With `val_fcf = -1` and a large net cash
position (`val_debt = -1000`), zero deviates and one scenario, raising the
stage growth mean from `0` to `1` strictly lowers the mean share price. -/
theorem growth_monotone_mean_cex :
    meanList (runSimulation { exInpNegFcf with g_high := 1 } [⟨0, 0, 0⟩])
      < meanList (runSimulation { exInpNegFcf with g_high := 0 } [⟨0, 0, 0⟩]) := by
  norm_num [meanList, runSimulation, runSimulationWithStd, scenarioPrice,
    project, List.range', projStep, growthFor, fadeTarget, terminalValue,
    normalSample, exInpNegFcf, max_def]

/-- C7 amended: with a non-negative base FCF, positive shares, terminal
growth at or above `-1`, and every scenario's samples in the meaningful
range (sampled WACC above `-1`, sampled growth at or above `-1`, sampled
exit multiple non-negative), increasing `stage_growth_mean` with the same
sampled randomness never decreases the mean resulting share price. -/
theorem growth_monotone_mean (inp : Inputs) (g1 g2 : ℚ) (noise : List Noise)
    (hg : g1 ≤ g2) (hfcf : 0 ≤ inp.val_fcf) (hs : 0 < inp.val_shares)
    (htg : -1 ≤ inp.g_term)
    (hw : ∀ z ∈ noise, -1 < normalSample inp.wacc_final (7/1000) z.zWacc)
    (hg1 : ∀ z ∈ noise, -1 ≤ normalSample g1 (2/100) z.zG)
    (hsm : ∀ z ∈ noise, 0 ≤ normalSample inp.exit_mult 1 z.zMult) :
    meanList (runSimulation { inp with g_high := g1 } noise)
      ≤ meanList (runSimulation { inp with g_high := g2 } noise) := by
  have ht : -1 ≤ fadeTarget inp.tv_method inp.g_term := by
    cases inp.tv_method
    · simpa [fadeTarget] using htg
    · norm_num [fadeTarget]
  have hone : ∀ z ∈ noise,
      scenarioPrice inp (normalSample inp.wacc_final (7/1000) z.zWacc)
          (normalSample g1 (2/100) z.zG) (normalSample inp.exit_mult 1 z.zMult)
        ≤ scenarioPrice inp (normalSample inp.wacc_final (7/1000) z.zWacc)
          (normalSample g2 (2/100) z.zG)
          (normalSample inp.exit_mult 1 z.zMult) := by
    intro z hz
    refine scenarioPrice_mono_g inp _ _ _ _ (hw z hz) (hg1 z hz) ?_ ht htg
      (hsm z hz) hfcf hs
    unfold normalSample
    linarith
  have hsum : (runSimulation { inp with g_high := g1 } noise).sum
      ≤ (runSimulation { inp with g_high := g2 } noise).sum := by
    unfold runSimulation runSimulationWithStd
    exact List.sum_le_sum hone
  have hlen : (runSimulation { inp with g_high := g1 } noise).length
      = (runSimulation { inp with g_high := g2 } noise).length := by
    simp [runSimulation, runSimulationWithStd]
  unfold meanList
  rw [hlen]
  rcases Nat.eq_zero_or_pos (runSimulation { inp with g_high := g2 } noise).length
    with h0 | hpos
  · rw [h0]; norm_num
  · exact (div_le_div_right (by exact_mod_cast hpos)).mpr hsum

/-- C7 witness: for the Gordon example with one zero-deviate scenario,
raising the stage growth mean from 10% to 12% does not decrease the mean
price. -/
theorem growth_monotone_mean_witness :
    meanList (runSimulation { exInp with g_high := 10/100 } [⟨0, 0, 0⟩])
      ≤ meanList (runSimulation { exInp with g_high := 12/100 } [⟨0, 0, 0⟩]) :=
  growth_monotone_mean exInp (10/100) (12/100) [⟨0, 0, 0⟩] (by norm_num)
    (by norm_num [exInp]) (by norm_num [exInp]) (by norm_num [exInp])
    (by intro z hz; simp only [List.mem_singleton] at hz; subst hz
        norm_num [normalSample, exInp])
    (by intro z hz; simp only [List.mem_singleton] at hz; subst hz
        norm_num [normalSample, exInp])
    (by intro z hz; simp only [List.mem_singleton] at hz; subst hz
        norm_num [normalSample, exInp])

/-- Helper for C8: positional access into a sorted list is monotone. -/
theorem sorted_getD_mono {s : List ℚ} (hs : List.Sorted (· ≤ ·) s) {i j : ℕ}
    (hij : i ≤ j) (hj : j < s.length) : s.getD i 0 ≤ s.getD j 0 := by
  have hi : i < s.length := lt_of_le_of_lt hij hj
  rw [List.getD_eq_getElem s 0 hi, List.getD_eq_getElem s 0 hj]
  exact hs.rel_get_of_le (Fin.mk_le_mk.mpr hij)

/-- Helper for C8: over a sorted list, the linear interpolation between
neighbouring order statistics is monotone in the fractional rank. -/
theorem interp_le (s : List ℚ) (hs : List.Sorted (· ≤ ·) s)
    (hlen : 1 ≤ s.length) (h1 h2 : ℚ) (h1nn : 0 ≤ h1) (h12 : h1 ≤ h2)
    (h2le : h2 ≤ (s.length : ℚ) - 1) :
    s.getD (min ((⌊h1⌋).toNat) (s.length - 1)) 0
        + (h1 - (((⌊h1⌋).toNat : ℕ) : ℚ))
          * (s.getD (min ((⌊h1⌋).toNat + 1) (s.length - 1)) 0
             - s.getD (min ((⌊h1⌋).toNat) (s.length - 1)) 0)
      ≤ s.getD (min ((⌊h2⌋).toNat) (s.length - 1)) 0
        + (h2 - (((⌊h2⌋).toNat : ℕ) : ℚ))
          * (s.getD (min ((⌊h2⌋).toNat + 1) (s.length - 1)) 0
             - s.getD (min ((⌊h2⌋).toNat) (s.length - 1)) 0) := by
  set n := s.length with hn_def
  set i1 := (⌊h1⌋).toNat with hi1_def
  set i2 := (⌊h2⌋).toNat with hi2_def
  have h2nn : 0 ≤ h2 := le_trans h1nn h12
  have hz1 : ((i1 : ℕ) : ℤ) = ⌊h1⌋ := Int.toNat_of_nonneg (Int.floor_nonneg.mpr h1nn)
  have hz2 : ((i2 : ℕ) : ℤ) = ⌊h2⌋ := Int.toNat_of_nonneg (Int.floor_nonneg.mpr h2nn)
  have hc1 : ((i1 : ℕ) : ℚ) = ((⌊h1⌋ : ℤ) : ℚ) := by exact_mod_cast hz1
  have hc2 : ((i2 : ℕ) : ℚ) = ((⌊h2⌋ : ℤ) : ℚ) := by exact_mod_cast hz2
  have hf1le : ((i1 : ℕ) : ℚ) ≤ h1 := by rw [hc1]; exact Int.floor_le h1
  have hf1lt : h1 < ((i1 : ℕ) : ℚ) + 1 := by rw [hc1]; exact Int.lt_floor_add_one h1
  have hf2le : ((i2 : ℕ) : ℚ) ≤ h2 := by rw [hc2]; exact Int.floor_le h2
  have hii : i1 ≤ i2 := Int.toNat_le_toNat (Int.floor_le_floor h12)
  have hcast : ((n - 1 : ℕ) : ℚ) = (n : ℚ) - 1 := by
    push_cast [Nat.cast_sub hlen]
    ring
  have hi2le : i2 ≤ n - 1 := by
    have hq : ((i2 : ℕ) : ℚ) ≤ ((n - 1 : ℕ) : ℚ) := by
      rw [hcast]; exact le_trans hf2le h2le
    exact_mod_cast hq
  have hi1le : i1 ≤ n - 1 := le_trans hii hi2le
  have hmin1 : min i1 (n - 1) = i1 := min_eq_left hi1le
  have hmin2 : min i2 (n - 1) = i2 := min_eq_left hi2le
  have hj1lt : min (i1 + 1) (n - 1) < n :=
    lt_of_le_of_lt (min_le_right _ _) (by omega)
  have hj2lt : min (i2 + 1) (n - 1) < n :=
    lt_of_le_of_lt (min_le_right _ _) (by omega)
  have hi2lt : i2 < n := by omega
  have hlo1hi1 : s.getD i1 0 ≤ s.getD (min (i1 + 1) (n - 1)) 0 :=
    sorted_getD_mono hs (le_min (Nat.le_succ i1) hi1le) hj1lt
  have hlo2hi2 : s.getD i2 0 ≤ s.getD (min (i2 + 1) (n - 1)) 0 :=
    sorted_getD_mono hs (le_min (Nat.le_succ i2) hi2le) hj2lt
  rw [hmin1, hmin2]
  rcases Nat.lt_or_ge i1 i2 with hlt | hge
  · have hfrac1lt : h1 - ((i1 : ℕ) : ℚ) < 1 := by linarith
    have hfrac1nn : 0 ≤ h1 - ((i1 : ℕ) : ℚ) := by linarith
    have hfrac2nn : 0 ≤ h2 - ((i2 : ℕ) : ℚ) := by linarith
    have hA : s.getD i1 0 + (h1 - ((i1 : ℕ) : ℚ))
          * (s.getD (min (i1 + 1) (n - 1)) 0 - s.getD i1 0)
        ≤ s.getD (min (i1 + 1) (n - 1)) 0 := by
      nlinarith [mul_nonneg (by linarith : (0:ℚ) ≤ 1 - (h1 - ((i1 : ℕ) : ℚ)))
        (by linarith : (0:ℚ) ≤ s.getD (min (i1 + 1) (n - 1)) 0 - s.getD i1 0)]
    have hB : s.getD (min (i1 + 1) (n - 1)) 0 ≤ s.getD i2 0 :=
      sorted_getD_mono hs (le_trans (min_le_left _ _) hlt) hi2lt
    have hC : s.getD i2 0 ≤ s.getD i2 0 + (h2 - ((i2 : ℕ) : ℚ))
          * (s.getD (min (i2 + 1) (n - 1)) 0 - s.getD i2 0) := by
      nlinarith [mul_nonneg hfrac2nn
        (by linarith : (0:ℚ) ≤ s.getD (min (i2 + 1) (n - 1)) 0 - s.getD i2 0)]
    linarith
  · have heq : i1 = i2 := le_antisymm hii hge
    rw [← heq]
    have hdf : h1 - ((i1 : ℕ) : ℚ) ≤ h2 - ((i1 : ℕ) : ℚ) := by
      rw [heq] at *
      linarith
    have hhl : 0 ≤ s.getD (min (i1 + 1) (n - 1)) 0 - s.getD i1 0 := by linarith
    nlinarith [mul_le_mul_of_nonneg_right hdf hhl]

/-- C8: percentile ordering — for any two levels `0 ≤ p1 < p2 ≤ 100`, the
linear-interpolation percentile of the same result sequence satisfies
`percentile(p1) ≤ percentile(p2)`. -/
theorem percentile_mono (xs : List ℚ) (p1 p2 : ℚ) (hne : xs ≠ [])
    (h0 : 0 ≤ p1) (h12 : p1 < p2) (h100 : p2 ≤ 100) :
    percentile xs p1 ≤ percentile xs p2 := by
  unfold percentile
  have hs := List.sorted_insertionSort (· ≤ ·) xs
  have hlen : 1 ≤ (List.insertionSort (· ≤ ·) xs).length := by
    rw [List.length_insertionSort]
    exact List.length_pos.mpr hne
  have hn1 : (0:ℚ) ≤ ((List.insertionSort (· ≤ ·) xs).length : ℚ) - 1 := by
    have : (1:ℚ) ≤ ((List.insertionSort (· ≤ ·) xs).length : ℚ) := by
      exact_mod_cast hlen
    linarith
  have hh1 : 0 ≤ p1 / 100 * (((List.insertionSort (· ≤ ·) xs).length : ℚ) - 1) :=
    mul_nonneg (by linarith) hn1
  have hh12 : p1 / 100 * (((List.insertionSort (· ≤ ·) xs).length : ℚ) - 1)
      ≤ p2 / 100 * (((List.insertionSort (· ≤ ·) xs).length : ℚ) - 1) :=
    mul_le_mul_of_nonneg_right (by linarith) hn1
  have hh2 : p2 / 100 * (((List.insertionSort (· ≤ ·) xs).length : ℚ) - 1)
      ≤ ((List.insertionSort (· ≤ ·) xs).length : ℚ) - 1 := by
    nlinarith
  exact interp_le (List.insertionSort (· ≤ ·) xs) hs hlen _ _ hh1 hh12 hh2

/-- C8 witness: on the sequence `[3, 1, 2]` the 5th percentile is at most
the 95th. -/
theorem percentile_mono_witness :
    percentile [3, 1, 2] 5 ≤ percentile [3, 1, 2] 95 :=
  percentile_mono [3, 1, 2] 5 95 (by simp) (by norm_num) (by norm_num)
    (by norm_num)

/-- Helper for C10: the WACC computed by `calculate_metrics` is
non-decreasing in WIBOR when the tax rate is at most 1 and the debt
weight is non-negative. -/
theorem sensWacc_mono (c : SensInputs) (w1 w2 : ℚ) (h : w1 ≤ w2)
    (htax : c.tax_rate ≤ 1) (hwd0 : 0 ≤ c.weight_debt) :
    sensWacc c w1 ≤ sensWacc c w2 := by
  show c.cost_equity * (1 - c.weight_debt)
        + (w1 + c.bank_margin) * (1 - c.tax_rate) * c.weight_debt
      ≤ c.cost_equity * (1 - c.weight_debt)
        + (w2 + c.bank_margin) * (1 - c.tax_rate) * c.weight_debt
  have h1 : (0:ℚ) ≤ 1 - c.tax_rate := by linarith
  have hkd : (w1 + c.bank_margin) * (1 - c.tax_rate)
      ≤ (w2 + c.bank_margin) * (1 - c.tax_rate) :=
    mul_le_mul_of_nonneg_right (by linarith) h1
  have := mul_le_mul_of_nonneg_right hkd hwd0
  linarith

/-- Helper for C10: the five-year projection fold keeps the cash-flow
component identical across two WACCs and the present-value component
antitone in the WACC. -/
theorem sensFold_anti (g wa wb : ℚ) (hwa : -1 < wa) (hab : wa ≤ wb)
    (hg : -1 ≤ g) :
    ∀ (ys : List ℕ) (a b : ℚ × ℚ), a.1 = b.1 → 0 ≤ a.1 → b.2 ≤ a.2 →
      0 ≤ (ys.foldl (sensStep g wa) a).1 ∧
      (ys.foldl (sensStep g wa) a).1 = (ys.foldl (sensStep g wb) b).1 ∧
      (ys.foldl (sensStep g wb) b).2 ≤ (ys.foldl (sensStep g wa) a).2 := by
  intro ys
  induction ys with
  | nil => intro a b he h0 hpv; exact ⟨h0, he, hpv⟩
  | cons y ys ih =>
    intro a b he h0 hpv
    have hpa : (0:ℚ) < (1 + wa) ^ y := pow_pos (by linarith) y
    have hpb : (0:ℚ) < (1 + wb) ^ y := pow_pos (by linarith) y
    have hpow : (1 + wa) ^ y ≤ (1 + wb) ^ y :=
      pow_le_pow_left (by linarith) (by linarith) y
    have hf0 : 0 ≤ a.1 * (1 + g) := mul_nonneg h0 (by linarith)
    have hstep0 : 0 ≤ (sensStep g wa a y).1 := hf0
    have hstepe : (sensStep g wa a y).1 = (sensStep g wb b y).1 := by
      show a.1 * (1 + g) = b.1 * (1 + g)
      rw [he]
    have hsteppv : (sensStep g wb b y).2 ≤ (sensStep g wa a y).2 := by
      show b.2 + b.1 * (1 + g) / (1 + wb) ^ y ≤ a.2 + a.1 * (1 + g) / (1 + wa) ^ y
      rw [← he]
      have hd : a.1 * (1 + g) / (1 + wb) ^ y ≤ a.1 * (1 + g) / (1 + wa) ^ y :=
        (div_le_div_iff hpb hpa).mpr (mul_le_mul_of_nonneg_left hpow hf0)
      linarith
    simpa only [List.foldl_cons] using
      ih (sensStep g wa a y) (sensStep g wb b y) hstepe hstep0 hsteppv

/-- Helper for C10: the price step of `calculate_metrics` is antitone in
the WACC under the claim's preconditions. -/
theorem sensPrice_anti (c : SensInputs) (wa wb : ℚ) (hwa : -1 < wa)
    (hab : wa ≤ wb) (hfcf : 0 ≤ c.fcf_year_0) (hg : -1 ≤ c.g_growth)
    (hgt : -1 ≤ c.g_term_base) (hsh : 0 < c.shares) :
    sensPriceAtWacc c wb ≤ sensPriceAtWacc c wa := by
  obtain ⟨hP0, hPe, hPpv⟩ := sensFold_anti c.g_growth wa wb hwa hab hg
    (List.range' 1 5) (c.fcf_year_0, 0) (c.fcf_year_0, 0) rfl hfcf le_rfl
  have hDa : (0:ℚ) < max (wa - c.g_term_base) (5/1000) :=
    lt_of_lt_of_le (by norm_num) (le_max_right _ _)
  have hDb : (0:ℚ) < max (wb - c.g_term_base) (5/1000) :=
    lt_of_lt_of_le (by norm_num) (le_max_right _ _)
  have hDab : max (wa - c.g_term_base) (5/1000)
      ≤ max (wb - c.g_term_base) (5/1000) :=
    max_le_max (by linarith) le_rfl
  have hnum : 0 ≤ ((List.range' 1 5).foldl (sensStep c.g_growth wa)
      (c.fcf_year_0, 0)).1 * (1 + c.g_term_base) :=
    mul_nonneg hP0 (by linarith)
  have htv : ((List.range' 1 5).foldl (sensStep c.g_growth wb)
        (c.fcf_year_0, 0)).1 * (1 + c.g_term_base)
        / max (wb - c.g_term_base) (5/1000)
      ≤ ((List.range' 1 5).foldl (sensStep c.g_growth wa)
        (c.fcf_year_0, 0)).1 * (1 + c.g_term_base)
        / max (wa - c.g_term_base) (5/1000) := by
    rw [← hPe]
    exact (div_le_div_iff hDb hDa).mpr (mul_le_mul_of_nonneg_left hDab hnum)
  have htvb0 : 0 ≤ ((List.range' 1 5).foldl (sensStep c.g_growth wb)
      (c.fcf_year_0, 0)).1 * (1 + c.g_term_base)
      / max (wb - c.g_term_base) (5/1000) := by
    rw [← hPe]
    exact div_nonneg hnum hDb.le
  have hpa5 : (0:ℚ) < (1 + wa) ^ 5 := pow_pos (by linarith) 5
  have hpow5 : (1 + wa) ^ 5 ≤ (1 + wb) ^ 5 :=
    pow_le_pow_left (by linarith) (by linarith) 5
  have hpvtv : ((List.range' 1 5).foldl (sensStep c.g_growth wb)
        (c.fcf_year_0, 0)).1 * (1 + c.g_term_base)
        / max (wb - c.g_term_base) (5/1000) / (1 + wb) ^ 5
      ≤ ((List.range' 1 5).foldl (sensStep c.g_growth wa)
        (c.fcf_year_0, 0)).1 * (1 + c.g_term_base)
        / max (wa - c.g_term_base) (5/1000) / (1 + wa) ^ 5 :=
    div_le_div (le_trans htvb0 htv) htv hpa5 hpow5
  show max (_ / c.shares) 0 ≤ max (_ / c.shares) 0
  refine max_le_max ((div_le_div_right hsh).mpr ?_) le_rfl
  linarith

/-- C10: WIBOR transmission monotonicity in `calculate_metrics` — under
the claim's preconditions (non-negative base FCF, growth and terminal
growth at or above `-1`, debt weight in `[0,1]`, tax rate at most 1,
positive shares, both resulting WACCs above `-1`), increasing the WIBOR
input never decreases the cost of debt or the WACC and never increases
the returned share price. -/
theorem wibor_transmission_mono (c : SensInputs) (w1 w2 : ℚ) (h : w1 ≤ w2)
    (hfcf : 0 ≤ c.fcf_year_0) (hg : -1 ≤ c.g_growth)
    (hgt : -1 ≤ c.g_term_base) (hwd0 : 0 ≤ c.weight_debt)
    (hwd1 : c.weight_debt ≤ 1) (htax : c.tax_rate ≤ 1) (hsh : 0 < c.shares)
    (hwacc1 : -1 < (calculate_metrics c w1).2.1)
    (hwacc2 : -1 < (calculate_metrics c w2).2.1) :
    (calculate_metrics c w1).1 ≤ (calculate_metrics c w2).1 ∧
    (calculate_metrics c w1).2.1 ≤ (calculate_metrics c w2).2.1 ∧
    (calculate_metrics c w2).2.2 ≤ (calculate_metrics c w1).2.2 := by
  have hwm : sensWacc c w1 ≤ sensWacc c w2 := sensWacc_mono c w1 w2 h htax hwd0
  refine ⟨add_le_add_right h _, hwm, ?_⟩
  exact sensPrice_anti c (sensWacc c w1) (sensWacc c w2) hwacc1 hwm hfcf hg
    hgt hsh

/-- C10 witness: at the sidebar defaults, a +100bp WIBOR shock does not
increase the implied share price (and does not decrease Kd or WACC). -/
theorem wibor_transmission_mono_witness :
    (calculate_metrics exSens (117/2000)).2.2
      ≥ (calculate_metrics exSens (117/2000 + 1/100)).2.2 :=
  (wibor_transmission_mono exSens (117/2000) (117/2000 + 1/100) (by norm_num)
    (by norm_num [exSens]) (by norm_num [exSens]) (by norm_num [exSens])
    (by norm_num [exSens]) (by norm_num [exSens]) (by norm_num [exSens])
    (by norm_num [exSens])
    (by norm_num [calculate_metrics, sensWacc, exSens])
    (by norm_num [calculate_metrics, sensWacc, exSens])).2.2

end DCF
